import Mathlib

/-!
Shallow embedding of `golem_messages/cryptography.py`.

Bytes are modelled as `List Nat`; machine randomness (the ephemeral private
key and the AES-CTR IV) is passed in explicitly as parameters; the external
cryptographic primitives (secp256k1 point arithmetic, SHA-256, HMAC-SHA256,
SHA3-256, the AES-128-CTR keystream, and coincurve's recoverable ECDSA) are
abstracted into a `CryptoPrims` record.  Elliptic-curve points are modelled
in exponent space: a point `k·G` is represented by the scalar `k`, the
64-byte `X‖Y` wire encoding of `k·G` is `encodePub k` (with partial inverse
`decodePub`), and the byte string pyelliptic's `raw_get_ecdh_key` derives
from the shared point `(a*b)·G` is `xcoord (a * b % n)` where `n` is the
curve order.  AES-128-CTR is modelled exactly as what it is: XOR of the
plaintext with a keystream determined by `(key, iv)`, which makes the
transform length-preserving and self-inverse, as the code relies on.
-/

namespace GolemCrypto

/-- Exception classes raised by `cryptography.py` (from `golem_messages.exceptions`),
together with the message string passed to the constructor when one is given.
The constructor (class) is the error kind; the message is mere payload. -/
inductive CryptoErr where
  | invalidKeys (msg : Option String)
  | decryptionError (msg : Option String)
  | invalidSignature (msg : Option String)
  | coincurveError
  | cryptoError (msg : Option String)
  deriving DecidableEq

/-- The exception class of an error, forgetting the message: two errors are
distinguishable as kinds exactly when their class names differ. -/
def CryptoErr.className : CryptoErr → String
  | .invalidKeys _ => "InvalidKeys"
  | .decryptionError _ => "DecryptionError"
  | .invalidSignature _ => "InvalidSignature"
  | .coincurveError => "CoincurveError"
  | .cryptoError _ => "CryptoError"

/-- Case split on an `Option`, written as a function so that proofs can
rewrite with the two equations below. -/
def optCase {α β : Type} (o : Option α) (dflt : β) (f : α → β) : β :=
  match o with
  | none => dflt
  | some a => f a

@[simp] theorem optCase_none {α β : Type} (dflt : β) (f : α → β) :
    optCase (none : Option α) dflt f = dflt := rfl

@[simp] theorem optCase_some {α β : Type} (a : α) (dflt : β) (f : α → β) :
    optCase (some a) dflt f = f a := rfl

/-- Source `verify_pubkey(key)`: `if len(key) != 64: raise exceptions.InvalidKeys('Invalid pubkey length')`.
No on-curve check is performed. -/
def verify_pubkey (key : List Nat) : Except CryptoErr Unit :=
  if key.length ≠ 64 then .error (.invalidKeys (some "Invalid pubkey length"))
  else .ok ()

/-- Python `struct.pack('>I', c)`: the 4-byte big-endian encoding of a 32-bit counter. -/
def be32 (c : Nat) : List Nat :=
  [c / 2 ^ 24 % 256, c / 2 ^ 16 % 256, c / 2 ^ 8 % 256, c % 256]

/-- The digests produced by `eciesKDF`'s while loop.  In the source, `counter`
starts at `0`, is incremented at the top of each iteration, and the loop runs
`while counter <= reps` where `reps = ((key_len + 7) * 8) / (hash_blocksize * 8)`
is a Python float; since `counter` is an integer, the loop body executes for
`counter = 1, 2, ..., floor(reps) + 1`, hashing
`counter_be32 ++ key_material ++ s1` (with `s1 = b""`) each time.  `reps` is
passed here already floored, i.e. as `(key_len + 7) / 64` in `Nat`. -/
def kdfBlocks (sha256 : List Nat → List Nat) (key_material : List Nat) (reps : Nat) :
    List (List Nat) :=
  (List.range (reps + 1)).map fun i => sha256 (be32 (i + 1) ++ key_material ++ [])

/-- Source `eciesKDF(key_material, key_len)`: NIST SP 800-56a concatenation KDF as the
source writes it, with `hash_blocksize = 64` ("interop w/go ecies implementation")
and `reps = ((key_len + 7) * 8) / (64 * 8)`; the concatenated digests are then
truncated with `key[:key_len]`. -/
def eciesKDF (sha256 : List Nat → List Nat) (key_material : List Nat) (key_len : Nat) :
    List Nat :=
  ((kdfBlocks sha256 key_material ((key_len + 7) / 64)).flatten).take key_len

/-- Argument to the `sha3` helper: Python's `seed` may be `str` or `bytes`. -/
inductive Seed where
  | str (s : String)
  | bytes (b : List Nat)

/-- Python's `str.encode()` with the default encoding: the UTF-8 bytes of the string. -/
def strEncode (s : String) : List Nat :=
  s.toUTF8.toList.map UInt8.toNat

/-- Source `sha3(seed)`: `if isinstance(seed, str): seed = seed.encode()` then
`_sha3_256(seed).digest()`.  Parameterized by the external SHA3-256 digest. -/
def sha3 (sha3_256 : List Nat → List Nat) : Seed → List Nat
  | .str s => sha3_256 (strEncode s)
  | .bytes b => sha3_256 b

/-- External primitives used by `cryptography.py` (pyelliptic / hashlib /
coincurve), abstracted.  `n` is the secp256k1 group order; `xcoord k` is the
32-byte ECDH key material pyelliptic derives from the point `k·G`;
`encodePub k` is the 64-byte `X‖Y` encoding of `k·G` and `decodePub` its
partial inverse (`none` models pyelliptic failing on bytes that are not a
valid point encoding); `keystream key iv len` is the first `len` bytes of the
AES-128-CTR keystream; `signRec sk digest` is coincurve's 65-byte recoverable
signature and `recover sig digest` the recovered public key in uncompressed
`0x04‖X‖Y` form (`none` models `from_signature_and_message` raising). -/
structure CryptoPrims where
  n : Nat
  xcoord : Nat → List Nat
  encodePub : Nat → List Nat
  decodePub : List Nat → Option Nat
  sha256 : List Nat → List Nat
  hmac_sha256 : List Nat → List Nat → List Nat
  keystream : List Nat → List Nat → Nat → List Nat
  sha3_256 : List Nat → List Nat
  signRec : List Nat → List Nat → List Nat
  recover : List Nat → List Nat → Option (List Nat)

/-- The ECDH key material for private scalar `a` against the point `e·G`: the
shared point is `(a*e)·G`, so in exponent space it is `a * e % n`. -/
def ecdhSharedKey (P : CryptoPrims) (a e : Nat) : List Nat :=
  P.xcoord (a * e % P.n)

/-- pyelliptic's `raw_get_ecdh_key(pubkey_x, pubkey_y)` on the 64-byte
concatenation of the two coordinates: decode the peer point, then derive the
shared key material; `none` when the bytes do not decode to a point. -/
def rawGetEcdhKey (P : CryptoPrims) (a : Nat) (pubBytes : List Nat) : Option (List Nat) :=
  optCase (P.decodePub pubBytes) none fun e => some (ecdhSharedKey P a e)

/-- Source `ECCx.ecies_encrypt(data, raw_pubkey, shared_mac_data='')`.  The ephemeral
private scalar `r` (the source generates it with `ephem = cls(None)`) and the
16-byte `iv` (the source draws it with `pyelliptic.Cipher.gen_IV`) are passed
in explicitly.  Returns `none` when the recipient key bytes do not decode
(pyelliptic would raise).  Otherwise, exactly as in the source:
`key = eciesKDF(key_material, 32)`, `key_enc, key_mac = key[:16], key[16:]`,
`key_mac = sha256(key_mac)`, `ciphertext = AES128CTR(key_enc, iv, data)`,
`msg = chr(0x04) + ephem.raw_pubkey + iv + ciphertext`,
`tag = hmac_sha256(key_mac, msg[1+64:] + shared_mac_data)`, result `msg + tag`. -/
def ecies_encrypt (P : CryptoPrims) (r : Nat) (iv data raw_pubkey shared_mac_data : List Nat) :
    Option (List Nat) :=
  optCase (rawGetEcdhKey P r raw_pubkey) none fun key_material =>
    let key := eciesKDF P.sha256 key_material 32
    let key_enc := key.take 16
    let key_mac := P.sha256 (key.drop 16)
    let ciphertext := List.zipWith Nat.xor (P.keystream key_enc iv data.length) data
    let msg := 4 :: (P.encodePub r ++ iv ++ ciphertext)
    let tag := P.hmac_sha256 key_mac (msg.drop 65 ++ shared_mac_data)
    some (msg ++ tag)

/-- Cryptographic primitives a run of `ecies_decrypt` may invoke, recorded in
order so that "fails before any cryptographic operation" is expressible. -/
inductive PrimCall where
  | ecdh
  | sha256
  | hmac
  | cipher
  deriving DecidableEq

/-- Source `ECCx.ecies_decrypt(data, shared_mac_data=b'')`, instrumented with the
list of cryptographic primitives invoked.  Faithful to the source:
the only check before the ECDH call is `if data[:1] != b'\x04'`; then
`_shared = data[1:1+64]`, `key_material = raw_get_ecdh_key(...)` (an ECDH
invocation even when pyelliptic then raises on a bad point, modelled as
`cryptoError`), `key = eciesKDF(key_material, 32)`,
`key_mac = sha256(key[16:])`, `tag = data[-32:]`,
`hmaced_data = hmac_sha256(key_mac, data[1+64:-32] + shared_mac_data)`,
failure `DecryptionError("Fail to verify data")` unless it equals `tag`, and
finally AES-CTR over `iv = data[65:65+16]`, `ciphertext = data[81:-32]`.
Python slice clamping coincides with truncated `Nat` subtraction here. -/
def ecies_decrypt_traced (P : CryptoPrims) (priv : Nat) (data shared_mac_data : List Nat) :
    Except CryptoErr (List Nat) × List PrimCall :=
  if data.take 1 ≠ [4] then
    (.error (.decryptionError (some "wrong ecies header")), [])
  else
    optCase (rawGetEcdhKey P priv ((data.drop 1).take 64))
      (.error (.cryptoError none), [.ecdh])
      fun key_material =>
        let key := eciesKDF P.sha256 key_material 32
        let key_enc := key.take 16
        let key_mac := P.sha256 (key.drop 16)
        let tag := data.drop (data.length - 32)
        let hmaced_data :=
          P.hmac_sha256 key_mac ((data.drop 65).take (data.length - 32 - 65) ++ shared_mac_data)
        if hmaced_data ≠ tag then
          (.error (.decryptionError (some "Fail to verify data")), [.ecdh, .sha256, .hmac])
        else
          let iv := (data.drop 65).take 16
          let ciphertext := (data.drop 81).take (data.length - 32 - 81)
          (.ok (List.zipWith Nat.xor (P.keystream key_enc iv ciphertext.length) ciphertext),
           [.ecdh, .sha256, .hmac, .cipher])

/-- The result of `ECCx.ecies_decrypt`, without the instrumentation. -/
def ecies_decrypt (P : CryptoPrims) (priv : Nat) (data shared_mac_data : List Nat) :
    Except CryptoErr (List Nat) :=
  (ecies_decrypt_traced P priv data shared_mac_data).1

/-- Source `ecdsa_sign(privkey, msghash)`: sign the `sha3` digest of the message with
coincurve's recoverable ECDSA (`hasher=None`, so the digest is signed as-is). -/
def ecdsa_sign (P : CryptoPrims) (privkey msghash : List Nat) : List Nat :=
  P.signRec privkey (sha3 P.sha3_256 (.bytes msghash))

/-- Source `ecdsa_verify(pubkey, signature, message)`: `verify_pubkey(pubkey)`, digest
the message with `sha3`, recover the signer's key (failures become
`CoincurveError`), then compare `pk.format(compressed=False)` with
`b'\x04' + pubkey`, raising `InvalidSignature()` on mismatch. -/
def ecdsa_verify (P : CryptoPrims) (pubkey signature message : List Nat) :
    Except CryptoErr Bool :=
  if pubkey.length ≠ 64 then .error (.invalidKeys (some "Invalid pubkey length"))
  else
    optCase (P.recover signature (sha3 P.sha3_256 (.bytes message)))
      (.error .coincurveError)
      fun pk =>
        if pk = 4 :: pubkey then .ok true
        else .error (.invalidSignature none)

/-- Source `ECCx.verify(sig, inputb)`: `if len(sig) != 65: raise
exceptions.InvalidSignature('Invalid length')`, then `ecdsa_verify` against
the holder's raw public key. -/
def ECCx_verify (P : CryptoPrims) (raw_pubkey sig inputb : List Nat) :
    Except CryptoErr Bool :=
  if sig.length ≠ 65 then .error (.invalidSignature (some "Invalid length"))
  else ecdsa_verify P raw_pubkey sig inputb

/-! Concrete primitives for evaluating the embedding on explicit inputs.
They satisfy the interface contracts the theorems assume (fixed digest
lengths, an exact-length keystream, point encode/decode inverses, and a
recover function that inverts recoverable signing) while every function
remains executable. -/

/-- A concrete 32-byte digest function used to evaluate the KDF on explicit inputs. -/
def sha256stub (x : List Nat) : List Nat :=
  List.replicate 32 ((x.sum + x.length) % 256)

/-- Concrete instantiation of all external primitives, for evaluating the
embedding on explicit inputs. -/
def primsStub : CryptoPrims where
  n := 5
  xcoord k := List.replicate 32 (k % 256)
  encodePub k := List.replicate 63 0 ++ [k]
  decodePub l := if l.length = 64 then some (l.getLastD 0) else none
  sha256 := sha256stub
  hmac_sha256 k x := List.replicate 32 ((k.sum + x.sum + x.length) % 256)
  keystream k i len := (List.range len).map fun j => (k.sum + i.sum + j) % 256
  sha3_256 x := List.replicate 32 ((x.sum + 1) % 256)
  signRec sk d := List.replicate 33 (sk.sum % 256) ++ d.take 32
  recover s d :=
    if s.length = 65 ∧ s.drop 33 = d.take 32 then some (4 :: List.replicate 64 (s.headD 0))
    else none

/-! List slicing helpers used to decode the ECIES envelope. -/

theorem take_of_len_eq {α : Type} {a : List α} {m : Nat} (b : List α) (h : a.length = m) :
    (a ++ b).take m = a := by
  subst h; simp

theorem drop_of_len_eq {α : Type} {a : List α} {m : Nat} (b : List α) (h : a.length = m) :
    (a ++ b).drop m = b := by
  subst h; simp

theorem take_of_len_add {α : Type} {a : List α} {m : Nat} (b : List α) (k : Nat)
    (h : a.length = m) : (a ++ b).take (m + k) = a ++ b.take k := by
  subst h
  induction a with
  | nil => simp
  | cons x xs ih => simp [Nat.succ_add, ih]

theorem drop_of_len_add {α : Type} {a : List α} {m : Nat} (b : List α) (k : Nat)
    (h : a.length = m) : (a ++ b).drop (m + k) = b.drop k := by
  subst h
  induction a with
  | nil => simp
  | cons x xs ih => simp [Nat.succ_add, ih]

/-- XOR-ing twice with the same keystream restores the plaintext: CTR-mode
decryption is the encryption transform, as `ecies_decrypt` relies on. -/
theorem zipWith_xor_involutive (ks data : List Nat) (h : ks.length = data.length) :
    List.zipWith Nat.xor ks (List.zipWith Nat.xor ks data) = data := by
  induction ks generalizing data with
  | nil =>
    cases data with
    | nil => rfl
    | cons d ds => simp at h
  | cons k ks ih =>
    cases data with
    | nil => simp at h
    | cons d ds =>
      simp only [List.length_cons, Nat.succ.injEq] at h
      simp only [List.zipWith_cons_cons, ih ds h, List.cons.injEq, and_true]
      show k ^^^ (k ^^^ d) = d
      rw [← Nat.xor_assoc, Nat.xor_self, Nat.zero_xor]

/-! Claims C4 and C5: the KDF. -/

/-- C4 (amended): `eciesKDF(key_material, out_len)` returns
`min out_len (32 * ((out_len + 7) / 64 + 1))` bytes — exactly `out_len` bytes
only when the loop produced at least `out_len` of them, which fails e.g. at
`out_len = 33`. -/
theorem sum_map_const (N c : Nat) : ((List.range N).map fun _ => c).sum = c * N := by
  induction N with
  | zero => rfl
  | succ m ih =>
    rw [List.range_succ, List.map_append, List.sum_append]
    simp [ih, Nat.mul_succ, Nat.mul_comm]

theorem eciesKDF_length_eq_min (sha : List Nat → List Nat) (km : List Nat) (key_len : Nat)
    (hsha : ∀ x, (sha x).length = 32) :
    (eciesKDF sha km key_len).length = min key_len (32 * ((key_len + 7) / 64 + 1)) := by
  have hblocks : ((kdfBlocks sha km ((key_len + 7) / 64)).flatten).length
      = 32 * ((key_len + 7) / 64 + 1) := by
    rw [kdfBlocks, List.length_flatten, List.map_map]
    simp only [Function.comp_def]
    rw [List.map_congr_left (g := fun i => 32) (fun i hi => hsha _)]
    exact sum_map_const _ 32
  simp [eciesKDF, List.length_take, hblocks]

/-- Witness for `eciesKDF_length_eq_min` at `out_len = 33`: the result has
`min 33 32 = 32` bytes. -/
theorem eciesKDF_length_eq_min_witness :
    (eciesKDF sha256stub [1, 2] 33).length = min 33 (32 * ((33 + 7) / 64 + 1)) :=
  eciesKDF_length_eq_min sha256stub [1, 2] 33 (fun x => by simp [sha256stub])

/-- C4 counterexample: at `out_len = 33` the KDF returns 32 bytes, not 33 —
the loop runs once (reps = floor(40*8/512) = 0), produces a single 32-byte
digest, and `key[:33]` cannot lengthen it. -/
theorem eciesKDF_length_counterexample :
    (eciesKDF sha256stub [] 33).length ≠ 33 := by decide

/-- C5 (amended): the number of SHA-256 invocations performed by `eciesKDF`
for a requested `key_len` is `(key_len + 7) / 64 + 1` (one per block of
`kdfBlocks`), i.e. `ceil((key_len*8 + 64) / 512)` — not
`ceil((key_len*8 + 56) / 512)`, from which it differs exactly when
`key_len ≡ 57 (mod 64)`. -/
theorem kdf_iteration_count (sha : List Nat → List Nat) (km : List Nat) (key_len : Nat) :
    (kdfBlocks sha km ((key_len + 7) / 64)).length = (key_len + 7) / 64 + 1 := by
  simp [kdfBlocks]

/-- C5 counterexample: at `out_len = 57` the loop hashes twice
(`reps = 64*8/512 = 1.0`, so `counter <= reps` admits `counter = 0` and
`counter = 1`), while the claimed ceiling formula
`ceil((57*8 + 56)/512) = ceil(512/512)` gives 1. -/
theorem kdf_iteration_count_counterexample :
    (kdfBlocks sha256stub [] ((57 + 7) / 64)).length ≠ (57 * 8 + 56 + 511) / 512 := by
  decide

/-! Claim C7: the two failure modes of `ECCx.verify`. -/

/-- C7 counterexample: a 64-byte signature makes `verify` raise
`InvalidSignature('Invalid length')`, and a recovered-key mismatch raises
`InvalidSignature()` — the same exception class, distinguishable only by
message, contrary to the claim that wrong length yields a distinct
FormatError-like kind. -/
theorem verify_error_kinds_counterexample :
    ECCx_verify primsStub (List.replicate 64 7) (List.replicate 64 0) [1, 2, 3]
        = .error (.invalidSignature (some "Invalid length")) ∧
    ECCx_verify primsStub (List.replicate 64 7)
        (List.replicate 33 9 ++ List.replicate 32 7) [1, 2, 3]
        = .error (.invalidSignature none) ∧
    CryptoErr.className (.invalidSignature (some "Invalid length"))
        = CryptoErr.className (.invalidSignature none) :=
  ⟨rfl, rfl, rfl⟩

/-- C7 (amended): for every signature whose length is not 65 bytes, `verify`
fails fast — before any recovery — with `InvalidSignature('Invalid length')`,
which is the same exception kind (`InvalidSignature`) as the mismatch error,
differing from it only in the attached message. -/
theorem verify_short_signature_error (P : CryptoPrims) (pub sig msg : List Nat)
    (h : sig.length ≠ 65) :
    ECCx_verify P pub sig msg = .error (.invalidSignature (some "Invalid length")) := by
  simp [ECCx_verify, h]

/-- Witness for `verify_short_signature_error` on a 2-byte signature. -/
theorem verify_short_signature_error_witness :
    ECCx_verify primsStub [] [1, 2] [] = .error (.invalidSignature (some "Invalid length")) :=
  verify_short_signature_error primsStub [] [1, 2] [] (by decide)

/-! Claim C2: what `ecies_decrypt` checks before touching cryptography. -/

/-- C2 counterexample: the one-byte input `[0x04]` is far shorter than 113
bytes, yet it passes the only pre-cryptography check (`data[:1] != b'\x04'`)
and `ecies_decrypt` invokes ECDH on it — there is no minimum-length check. -/
theorem ecies_decrypt_short_input_invokes_ecdh :
    ([4] : List Nat).length < 113 ∧
    (ecies_decrypt_traced primsStub 2 [4] []).2 = [.ecdh] :=
  ⟨by decide, rfl⟩

/-- C2 (amended): on inputs shorter than 113 bytes, `ecies_decrypt` fails with
`DecryptionError("wrong ecies header")` before invoking any cryptographic
primitive exactly when the first byte is not `0x04`; a short input that does
begin with `0x04` instead proceeds to invoke ECDH. -/
theorem ecies_decrypt_header_gate (P : CryptoPrims) (priv : Nat) (data m : List Nat)
    (hlen : data.length < 113) :
    (data.take 1 ≠ [4] →
      ecies_decrypt_traced P priv data m =
        (.error (.decryptionError (some "wrong ecies header")), [])) ∧
    (data.take 1 = [4] → PrimCall.ecdh ∈ (ecies_decrypt_traced P priv data m).2) := by
  constructor
  · intro h
    simp [ecies_decrypt_traced, h]
  · intro h
    unfold ecies_decrypt_traced
    rw [if_neg (by simp [h])]
    cases hdec : P.decodePub ((data.drop 1).take 64) with
    | none =>
      simp only [rawGetEcdhKey]
      rw [hdec]
      simp
    | some e =>
      simp only [rawGetEcdhKey]
      rw [hdec]
      simp only [optCase_some]
      split <;> simp

/-- Witness for `ecies_decrypt_header_gate`: a header-less short input fails
with no primitive invoked, while `[0x04]` reaches ECDH. -/
theorem ecies_decrypt_header_gate_witness :
    (ecies_decrypt_traced primsStub 0 [9] [] =
      (.error (.decryptionError (some "wrong ecies header")), [])) ∧
    PrimCall.ecdh ∈ (ecies_decrypt_traced primsStub 0 [4] []).2 :=
  ⟨(ecies_decrypt_header_gate primsStub 0 [9] [] (by decide)).1 (by decide),
   (ecies_decrypt_header_gate primsStub 0 [4] [] (by decide)).2 (by decide)⟩

/-! Claim C6: signature round-trip. -/

/-- C6: for every message and every key pair whose recoverable signing and
recovery honour coincurve's contract (`recover (signRec priv d) d` is the
tagged public key `0x04 ‖ pub`, and signatures are 65 bytes),
`verify(pub, sign(priv, m), m)` returns `true`: `sign` signs the SHA3-256
digest of `m`, and `verify` recovers the key from the signature and compares
it to `0x04 ‖ pub`. -/
theorem signature_roundtrip (P : CryptoPrims) (priv pub msg : List Nat)
    (hpub : pub.length = 64)
    (hlen : (ecdsa_sign P priv msg).length = 65)
    (hrec : P.recover (ecdsa_sign P priv msg) (sha3 P.sha3_256 (.bytes msg)) = some (4 :: pub)) :
    ECCx_verify P pub (ecdsa_sign P priv msg) msg = .ok true := by
  unfold ECCx_verify ecdsa_verify
  rw [if_neg (by simp [hlen]), if_neg (by simp [hpub])]
  rw [hrec]
  simp

/-- Witness for `signature_roundtrip` with the concrete primitives: the
private key `[7]` signs `[1, 2, 3]` and the derived 64-byte key verifies it. -/
theorem signature_roundtrip_witness :
    ECCx_verify primsStub (List.replicate 64 7) (ecdsa_sign primsStub [7] [1, 2, 3]) [1, 2, 3]
      = .ok true :=
  signature_roundtrip primsStub [7] (List.replicate 64 7) [1, 2, 3]
    (by decide) (by decide) (by decide)

/-! ECIES envelope structure: helper lemmas shared by claims C1, C3 and C8. -/

/-- Normal form of a successful `ecies_encrypt`: once the recipient key bytes
decode to the exponent `e`, the envelope is `msg ++ tag` with
`msg = 0x04 ‖ R ‖ IV ‖ C` and `tag` the HMAC over `msg[65:] ++ shared_mac_data`. -/
theorem ecies_encrypt_eq_some (P : CryptoPrims) (r e : Nat) (iv data pub m : List Nat)
    (hd : P.decodePub pub = some e) :
    ecies_encrypt P r iv data pub m =
      some ((4 :: (P.encodePub r ++ iv ++
          List.zipWith Nat.xor
            (P.keystream ((eciesKDF P.sha256 (ecdhSharedKey P r e) 32).take 16) iv data.length)
            data)) ++
        P.hmac_sha256 (P.sha256 ((eciesKDF P.sha256 (ecdhSharedKey P r e) 32).drop 16))
          ((4 :: (P.encodePub r ++ iv ++
            List.zipWith Nat.xor
              (P.keystream ((eciesKDF P.sha256 (ecdhSharedKey P r e) 32).take 16) iv data.length)
              data)).drop 65 ++ m)) := by
  unfold ecies_encrypt rawGetEcdhKey
  rw [hd]
  rfl

/-- Dropping the `0x04` tag byte and the 64-byte ephemeral key from
`msg = 0x04 ‖ R ‖ IV ‖ C` leaves `IV ‖ C` — the source's `msg[1 + 64:]`. -/
theorem msg_drop_65 (R iv C : List Nat) (hR : R.length = 64) :
    (4 :: (R ++ iv ++ C)).drop 65 = iv ++ C := by
  have h1 : (4 :: (R ++ iv ++ C)) = (4 :: R) ++ (iv ++ C) := by simp
  rw [h1]
  exact drop_of_len_eq _ (by simp [hR])

/-- All the O(1) slices `ecies_decrypt` takes of a well-formed envelope
`0x04 ‖ R(64) ‖ IV(16) ‖ C ‖ tag(32)`. -/
theorem envelope_slices (R iv C tag : List Nat) (hR : R.length = 64)
    (hiv : iv.length = 16) (htag : tag.length = 32) :
    ((4 :: (R ++ iv ++ C)) ++ tag).length = 113 + C.length ∧
    ((4 :: (R ++ iv ++ C)) ++ tag).take 1 = [4] ∧
    ((((4 :: (R ++ iv ++ C)) ++ tag).drop 1).take 64) = R ∧
    (((4 :: (R ++ iv ++ C)) ++ tag).drop (113 + C.length - 32)) = tag ∧
    ((((4 :: (R ++ iv ++ C)) ++ tag).drop 65).take (113 + C.length - 32 - 65)) = iv ++ C ∧
    ((((4 :: (R ++ iv ++ C)) ++ tag).drop 65).take 16) = iv ∧
    ((((4 :: (R ++ iv ++ C)) ++ tag).drop 81).take (113 + C.length - 32 - 81)) = C := by
  have e2 : (4 :: (R ++ iv ++ C)) ++ tag = (4 :: R) ++ (iv ++ (C ++ tag)) := by simp
  have e3 : (4 :: (R ++ iv ++ C)) ++ tag = ((4 :: R) ++ iv) ++ (C ++ tag) := by simp
  have d65 : ((4 :: (R ++ iv ++ C)) ++ tag).drop 65 = iv ++ (C ++ tag) := by
    rw [e2]; exact drop_of_len_eq _ (by simp [hR])
  have d81 : ((4 :: (R ++ iv ++ C)) ++ tag).drop 81 = C ++ tag := by
    rw [e3]; exact drop_of_len_eq _ (by simp [hR, hiv])
  refine ⟨?_, rfl, ?_, ?_, ?_, ?_, ?_⟩
  · simp only [List.length_append, List.length_cons, hR, hiv, htag]
    omega
  · show ((R ++ iv ++ C) ++ tag).take 64 = R
    have h1 : (R ++ iv ++ C) ++ tag = R ++ (iv ++ (C ++ tag)) := by simp
    rw [h1]
    exact take_of_len_eq _ hR
  · have harith : 113 + C.length - 32 = 81 + C.length := by omega
    rw [harith]
    exact drop_of_len_eq _ (by simp only [List.length_cons, List.length_append, hR, hiv]; omega)
  · have harith : 113 + C.length - 32 - 65 = 16 + C.length := by omega
    rw [d65, harith, take_of_len_add (C ++ tag) C.length hiv, take_of_len_eq tag rfl]
  · rw [d65]
    exact take_of_len_eq _ hiv
  · have harith : 113 + C.length - 32 - 81 = C.length := by omega
    rw [d81, harith]
    exact take_of_len_eq tag rfl

/-! Claim C8: envelope length. -/

/-- C8: whenever `ecies_encrypt` produces an envelope (the recipient key bytes
decode to a point), the envelope is exactly `113 + len(plaintext)` bytes:
`1 (0x04) + 64 (R) + 16 (IV) + len(data) (C) + 32 (tag)`. -/
theorem ecies_encrypt_length (P : CryptoPrims) (r e : Nat) (iv data pub m env : List Nat)
    (hd : P.decodePub pub = some e)
    (hencR : (P.encodePub r).length = 64) (hiv : iv.length = 16)
    (hks : ∀ k i l, (P.keystream k i l).length = l)
    (hhm : ∀ k x, (P.hmac_sha256 k x).length = 32)
    (henv : ecies_encrypt P r iv data pub m = some env) :
    env.length = 113 + data.length := by
  rw [ecies_encrypt_eq_some P r e iv data pub m hd] at henv
  injection henv with henv
  subst henv
  simp only [List.length_append, List.length_cons, List.length_zipWith, hencR, hiv, hks, hhm]
  omega

/-- Witness for `ecies_encrypt_length`: encrypting the 2-byte plaintext
`[10, 20]` (including the empty-plaintext arithmetic `113 + n`) yields a
115-byte envelope under the concrete primitives. -/
theorem ecies_encrypt_length_witness :
    ((ecies_encrypt primsStub 3 (List.replicate 16 1) [10, 20]
        (primsStub.encodePub 2) [5]).getD []).length = 113 + ([10, 20] : List Nat).length :=
  ecies_encrypt_length primsStub 3 2 (List.replicate 16 1) [10, 20] (primsStub.encodePub 2) [5]
    ((ecies_encrypt primsStub 3 (List.replicate 16 1) [10, 20] (primsStub.encodePub 2) [5]).getD [])
    (by decide) (by decide) (by decide)
    (fun k i l => by simp [primsStub])
    (fun k x => by simp [primsStub])
    rfl

/-! Claim C3: ECIES round-trip. -/

/-- C3: decrypting an encryption returns the plaintext.  For every plaintext
(empty included), every recipient key pair (`b`, `encodePub b`), every
`shared_mac_data` supplied identically to both sides, and every ephemeral
scalar and 16-byte IV, provided the primitives meet their interface contracts
(point encode/decode invert on the two keys, the keystream has the requested
length, tags are 32 bytes, and the ephemeral key encodes to 64 bytes):
`decrypt(encrypt(p, pub, m), priv, m) = p`.  The proof goes through the ECDH
agreement `r·(b·G) = b·(r·G)`, the recomputed HMAC matching the stored tag,
and CTR decryption being the inverse XOR transform. -/
theorem ecies_roundtrip (P : CryptoPrims) (b r : Nat) (iv data m : List Nat)
    (hiv : iv.length = 16)
    (hencR : (P.encodePub r).length = 64)
    (hdecr : P.decodePub (P.encodePub r) = some r)
    (hdecb : P.decodePub (P.encodePub b) = some b)
    (hks : ∀ k i l, (P.keystream k i l).length = l)
    (hhm : ∀ k x, (P.hmac_sha256 k x).length = 32)
    (env : List Nat)
    (henv : ecies_encrypt P r iv data (P.encodePub b) m = some env) :
    ecies_decrypt P b env m = .ok data := by
  rw [ecies_encrypt_eq_some P r b iv data (P.encodePub b) m hdecb] at henv
  injection henv with henv
  subst henv
  set ks := P.keystream ((eciesKDF P.sha256 (ecdhSharedKey P r b) 32).take 16) iv data.length
    with hksdef
  set C := List.zipWith Nat.xor ks data with hCdef
  set tagv := P.hmac_sha256 (P.sha256 ((eciesKDF P.sha256 (ecdhSharedKey P r b) 32).drop 16))
      ((4 :: (P.encodePub r ++ iv ++ C)).drop 65 ++ m) with htagdef
  have hC : C.length = data.length := by
    rw [hCdef]
    simp [List.length_zipWith, hksdef, hks]
  have htagv : tagv.length = 32 := by
    rw [htagdef]
    exact hhm _ _
  obtain ⟨hlen, htake1, hshared, htag, hmacslice, hivslice, hctslice⟩ :=
    envelope_slices (P.encodePub r) iv C tagv hencR hiv htagv
  unfold ecies_decrypt ecies_decrypt_traced
  rw [if_neg (fun hh => hh htake1)]
  simp only [rawGetEcdhKey]
  rw [hshared, hdecr]
  simp only [optCase_some]
  have hcomm : ecdhSharedKey P b r = ecdhSharedKey P r b := by
    unfold ecdhSharedKey
    rw [Nat.mul_comm]
  rw [hcomm, hlen, htag, hmacslice]
  have htagv_eq : tagv =
      P.hmac_sha256 (P.sha256 ((eciesKDF P.sha256 (ecdhSharedKey P r b) 32).drop 16))
        ((iv ++ C) ++ m) := by
    rw [htagdef, msg_drop_65 _ _ _ hencR]
  rw [if_neg (fun hh => hh htagv_eq.symm)]
  rw [hivslice, hctslice, hC]
  show Except.ok (List.zipWith Nat.xor ks C) = Except.ok data
  rw [hCdef, zipWith_xor_involutive ks data (by rw [hksdef]; exact hks _ _ _)]

/-- Witness for `ecies_roundtrip` with the concrete primitives: recipient
exponent 2, ephemeral exponent 3, plaintext `[10, 20]`, context `[5]`. -/
theorem ecies_roundtrip_witness :
    ecies_decrypt primsStub 2
      ((ecies_encrypt primsStub 3 (List.replicate 16 1) [10, 20]
        (primsStub.encodePub 2) [5]).getD [])
      [5] = .ok [10, 20] :=
  ecies_roundtrip primsStub 2 3 (List.replicate 16 1) [10, 20] [5]
    (by decide) (by decide) (by decide) (by decide)
    (fun k i l => by simp [primsStub])
    (fun k x => by simp [primsStub])
    ((ecies_encrypt primsStub 3 (List.replicate 16 1) [10, 20] (primsStub.encodePub 2) [5]).getD [])
    rfl

/-! Claim C1: what the authentication tag is computed over. -/

/-- The authentication tag as claim C1 states it: with
`msg_body = R(64) ‖ IV(16) ‖ C` the tag would be
`HMAC_SHA256(K_mac, msg_body ‖ shared_mac_data)`, so the HMAC input would
include the ephemeral public key `R`.  Written from the claim's words, to be
compared with what `ecies_encrypt` actually stores. -/
def eciesTagClaimWithR (P : CryptoPrims) (r : Nat) (iv data raw_pubkey shared_mac_data : List Nat) :
    Option (List Nat) :=
  optCase (rawGetEcdhKey P r raw_pubkey) none fun key_material =>
    let key := eciesKDF P.sha256 key_material 32
    let key_mac := P.sha256 (key.drop 16)
    let ciphertext := List.zipWith Nat.xor (P.keystream (key.take 16) iv data.length) data
    some (P.hmac_sha256 key_mac ((P.encodePub r ++ iv ++ ciphertext) ++ shared_mac_data))

/-- C1 counterexample: on a concrete encryption, the tag stored in the
envelope (the last 32 bytes, at offset `81 + len(data)`) differs from the
claim's `HMAC(K_mac, R ‖ IV ‖ C ‖ shared_mac_data)` — the code HMACs
`msg[1+64:]`, which strips `R` along with the `0x04` byte. -/
theorem ecies_tag_with_R_counterexample :
    ((ecies_encrypt primsStub 3 (List.replicate 16 1) [10, 20]
        (primsStub.encodePub 2) [5]).getD []).drop (81 + 2)
      ≠ (eciesTagClaimWithR primsStub 3 (List.replicate 16 1) [10, 20]
        (primsStub.encodePub 2) [5]).getD [] := by
  decide

/-- C1 (amended): the tag `ecies_encrypt` appends to the envelope is
`HMAC_SHA256(K_mac, IV ‖ C ‖ shared_mac_data)`: the HMAC input starts at
`msg[65:]`, so the ephemeral public key `R` is *not* part of it. -/
theorem ecies_tag_over_iv_ct_only (P : CryptoPrims) (r e : Nat) (iv data pub m env : List Nat)
    (hd : P.decodePub pub = some e)
    (hencR : (P.encodePub r).length = 64) (hiv : iv.length = 16)
    (hks : ∀ k i l, (P.keystream k i l).length = l)
    (henv : ecies_encrypt P r iv data pub m = some env) :
    env.drop (81 + data.length) =
      P.hmac_sha256 (P.sha256 ((eciesKDF P.sha256 (ecdhSharedKey P r e) 32).drop 16))
        ((iv ++ List.zipWith Nat.xor
            (P.keystream ((eciesKDF P.sha256 (ecdhSharedKey P r e) 32).take 16) iv data.length)
            data) ++ m) := by
  rw [ecies_encrypt_eq_some P r e iv data pub m hd] at henv
  injection henv with henv
  subst henv
  set ks := P.keystream ((eciesKDF P.sha256 (ecdhSharedKey P r e) 32).take 16) iv data.length
    with hksdef
  set C := List.zipWith Nat.xor ks data with hCdef
  have hC : C.length = data.length := by
    rw [hCdef]
    simp [List.length_zipWith, hksdef, hks]
  have hmsglen : (4 :: (P.encodePub r ++ iv ++ C)).length = 81 + data.length := by
    simp only [List.length_cons, List.length_append, hencR, hiv, hC]
    omega
  rw [drop_of_len_eq _ hmsglen, msg_drop_65 _ _ _ hencR]

/-- Witness for `ecies_tag_over_iv_ct_only` on the concrete encryption used
throughout: the envelope's tag is the HMAC over `IV ‖ C ‖ shared_mac_data`. -/
theorem ecies_tag_over_iv_ct_only_witness :
    ((ecies_encrypt primsStub 3 (List.replicate 16 1) [10, 20]
        (primsStub.encodePub 2) [5]).getD []).drop (81 + ([10, 20] : List Nat).length) =
      primsStub.hmac_sha256
        (primsStub.sha256 ((eciesKDF primsStub.sha256 (ecdhSharedKey primsStub 3 2) 32).drop 16))
        ((List.replicate 16 1 ++ List.zipWith Nat.xor
            (primsStub.keystream
              ((eciesKDF primsStub.sha256 (ecdhSharedKey primsStub 3 2) 32).take 16)
              (List.replicate 16 1) ([10, 20] : List Nat).length)
            [10, 20]) ++ [5]) :=
  ecies_tag_over_iv_ct_only primsStub 3 2 (List.replicate 16 1) [10, 20]
    (primsStub.encodePub 2) [5]
    ((ecies_encrypt primsStub 3 (List.replicate 16 1) [10, 20] (primsStub.encodePub 2) [5]).getD [])
    (by decide) (by decide) (by decide)
    (fun k i l => by simp [primsStub])
    rfl

/-! Claim C9: public-key validation. -/

/-- C9: `verify_pubkey` fails with `InvalidKeys` precisely on inputs whose
length is not 64, and accepts every 64-byte input (no on-curve check exists in
the function — it inspects only the length). -/
theorem verify_pubkey_iff (key : List Nat) :
    (verify_pubkey key = .error (.invalidKeys (some "Invalid pubkey length")) ↔
      key.length ≠ 64) ∧
    (verify_pubkey key = .ok () ↔ key.length = 64) := by
  by_cases h : key.length = 64 <;> simp [verify_pubkey, h]

/-! Claim C10: the sha3 helper. -/

/-- C10: `sha3` hashes a text seed exactly as the UTF-8 byte encoding of that
text — `sha3(s) = sha3(s.encode())` for every string `s` and every underlying
digest function. -/
theorem sha3_text_eq_bytes (sha3_256 : List Nat → List Nat) (s : String) :
    sha3 sha3_256 (.str s) = sha3 sha3_256 (.bytes (strEncode s)) := rfl

end GolemCrypto
